import Mathlib

/-!
Verification of the pineapple-donut collectible-game backend.

The development shallowly embeds the core logic of the repository:
the trade state machine (`src/handlers/trades/*.ts` together with the
`functions/trades` helpers), the item roller (`generateItem` and its
helpers), and the catalog generator (`src/scripts/seeder/catalog.ts`).

Modelling conventions:
- DynamoDB tables are modelled as in-memory lists of records; `get` is
  `List.find?` on the key, `update` maps over the list rewriting the
  matching records, `scan` returns the whole list.
- Each request handler is a pure function from a `GameState` (plus the
  authenticated caller id and path parameters) to a response paired with
  the successor state; the `await`ed persistence calls of one invocation
  are sequenced in program order.
- `Math.random()` draws are explicit `ℚ` parameters in `[0,1)`;
  JavaScript numbers are modelled as `ℚ`, and `Number(x.toFixed(18))`
  as rounding to the grid of integer multiples of `10⁻¹⁸`.
- Timestamp fields (`createdAt`, `resolvedAt`, `foundAt` contents) and
  generated flavor text are irrelevant to the verified properties and are
  threaded through as opaque string parameters where the source draws
  them from clocks or word lists.
-/

namespace PineappleDonut

/-- Trade lifecycle states, from `TradeStatus` in `src/types/index.ts`. -/
inductive TradeStatus where
  | pending
  | completed
  | rejected
  | cancelled
  deriving DecidableEq

/-- The string value of a status, as in the TypeScript enum. -/
def TradeStatus.text : TradeStatus → String
  | .pending => "pending"
  | .completed => "completed"
  | .rejected => "rejected"
  | .cancelled => "cancelled"

/-- An owned item instance, from `Item` in `src/types/index.ts`.
`foundAt` is an opaque timestamp string. -/
structure Item where
  id : String
  playerId : String
  collectableId : String
  quality : ℤ
  chance : ℚ
  foundAt : String
  deriving DecidableEq

/-- A trade offer, from `Trade` in `src/types/index.ts` (timestamp fields
omitted: nothing verified here reads them). -/
structure Trade where
  id : String
  fromPlayerId : String
  toPlayerId : String
  offeredItemIds : List String
  requestedItemIds : List String
  status : TradeStatus
  deriving DecidableEq

/-- The persistent store visible to the trade handlers: the `Items` and
`Trades` tables. -/
structure GameState where
  items : List Item
  trades : List Trade
  deriving DecidableEq

/-- HTTP-level outcome of a handler, from `lib/http`. -/
inductive HandlerResult where
  | success (msg : String)
  | badRequest (msg : String)
  | notFound (msg : String)
  | errorResp (msg : String) (code : ℕ)
  deriving DecidableEq

/-- `getTrade` from `functions/trades`: `Dynamodb.get(Tables.Trades, { id })`. -/
def getTrade (gs : GameState) (tradeId : String) : Option Trade :=
  gs.trades.find? (fun t => t.id == tradeId)

/-- `updateTradeStatus` from `functions/trades`: rewrites the status of the
records with the given key. -/
def updateTradeStatus (trades : List Trade) (tradeId : String) (status : TradeStatus) :
    List Trade :=
  trades.map (fun t => if t.id = tradeId then { t with status := status } else t)

/-- `itemsBelongToPlayer` from `functions/trades`: an empty id list returns
`true` immediately; otherwise every id must resolve to an item owned by
`expectedPlayerId`. -/
def itemsBelongToPlayer (items : List Item) (itemIds : List String)
    (expectedPlayerId : String) : Bool :=
  if itemIds.isEmpty then true
  else
    (itemIds.map (fun iid => items.find? (fun it => it.id == iid))).all
      (fun res =>
        match res with
        | some it => it.playerId == expectedPlayerId
        | none => false)

/-- `findConflictingTrades` from `functions/trades`: scan all trades and keep
the pending ones, other than the excluded trade, that reference any of the
given item ids. -/
def findConflictingTrades (trades : List Trade) (excludeTradeId : String)
    (itemIds : List String) : List Trade :=
  trades.filter (fun t =>
    !(t.id == excludeTradeId) && decide (t.status = TradeStatus.pending) &&
      (t.offeredItemIds.any (fun iid => itemIds.contains iid) ||
        t.requestedItemIds.any (fun iid => itemIds.contains iid)))

/-- `transferItemOwnership` from `functions/trades`: each listed id has its
record's `playerId` rewritten to the new owner. -/
def transferItemOwnership (items : List Item) (itemIds : List String)
    (toPlayerId : String) : List Item :=
  items.map (fun it => if it.id ∈ itemIds then { it with playerId := toPlayerId } else it)

/-- The cancel handler, `src/handlers/trades/cancel.ts`.  As written in the
source it checks only that the caller is the trade's sender, performs no
status check, and sets the status to `REJECTED`. -/
def cancelHandler (gs : GameState) (callerId tradeId : String) :
    HandlerResult × GameState :=
  match getTrade gs tradeId with
  | none => (.notFound "Trade not found", gs)
  | some trade =>
    if trade.fromPlayerId ≠ callerId then
      (.errorResp "You are not allowed to cancel this trade" 403, gs)
    else
      (.success "Trade cancelled",
        { gs with trades := updateTradeStatus gs.trades tradeId TradeStatus.rejected })

/-- The state produced by the success path of the accept handler: both item
transfers, the status update to `COMPLETED`, then conflict cancellation
(the source awaits the first three in a `Promise.all`, then scans). -/
def settleTrade (gs : GameState) (trade : Trade) (callerId tradeId : String) : GameState :=
  let items1 := transferItemOwnership gs.items trade.offeredItemIds callerId
  let items2 := transferItemOwnership items1 trade.requestedItemIds trade.fromPlayerId
  let trades1 := updateTradeStatus gs.trades tradeId TradeStatus.completed
  let moved := trade.offeredItemIds ++ trade.requestedItemIds
  let trades2 :=
    if moved.isEmpty then trades1
    else
      (findConflictingTrades trades1 tradeId moved).foldl
        (fun ts c => updateTradeStatus ts c.id TradeStatus.cancelled) trades1
  ⟨items2, trades2⟩

/-- The accept handler, `src/handlers/trades/accept.ts`. -/
def acceptHandler (gs : GameState) (callerId tradeId : String) :
    HandlerResult × GameState :=
  match getTrade gs tradeId with
  | none => (.notFound "Trade not found", gs)
  | some trade =>
    if trade.toPlayerId ≠ callerId then
      (.errorResp "You can only accept trades offered to you" 403, gs)
    else if trade.status ≠ TradeStatus.pending then
      (.badRequest ("Trade is " ++ trade.status.text ++ ", not pending"), gs)
    else if itemsBelongToPlayer gs.items trade.offeredItemIds trade.fromPlayerId = false then
      (.badRequest "Offered items are no longer owned by the sender.", gs)
    else if itemsBelongToPlayer gs.items trade.requestedItemIds trade.toPlayerId = false then
      (.badRequest "Requested items are no longer owned by you.", gs)
    else
      (.success "Trade completed successfully", settleTrade gs trade callerId tradeId)

/-! Concrete states exercising the cancel handler. -/

/-- A trade already in the terminal state `COMPLETED`. -/
def tradeDoneA : Trade :=
  { id := "tA", fromPlayerId := "p1", toPlayerId := "p2",
    offeredItemIds := ["x1"], requestedItemIds := ["x2"],
    status := TradeStatus.completed }

def stateDoneA : GameState := { items := [], trades := [tradeDoneA] }

/-- A pending trade about to be cancelled by its creator. -/
def tradePendB : Trade :=
  { id := "tB", fromPlayerId := "p1", toPlayerId := "p2",
    offeredItemIds := ["y1"], requestedItemIds := ["y2"],
    status := TradeStatus.pending }

def statePendB : GameState := { items := [], trades := [tradePendB] }

/-! Basic lemmas about the trade-function embeddings. -/

theorem transfer_owner_of_mem_ids {items : List Item} {ids : List String} {o : String}
    {it' : Item} (h : it' ∈ transferItemOwnership items ids o) (hid : it'.id ∈ ids) :
    it'.playerId = o := by
  rcases List.mem_map.mp h with ⟨it, _, heq⟩
  by_cases hc : it.id ∈ ids
  · rw [if_pos hc] at heq
    rw [← heq]
  · rw [if_neg hc] at heq
    subst heq
    exact absurd hid hc

theorem transfer_mem_of_not_mem_ids {items : List Item} {ids : List String} {o : String}
    {it' : Item} (h : it' ∈ transferItemOwnership items ids o) (hid : it'.id ∉ ids) :
    it' ∈ items := by
  rcases List.mem_map.mp h with ⟨it, hmem, heq⟩
  by_cases hc : it.id ∈ ids
  · rw [if_pos hc] at heq
    exfalso
    apply hid
    rw [← heq]
    exact hc
  · rw [if_neg hc] at heq
    subst heq
    exact hmem

theorem transfer_exists_id {items : List Item} (ids : List String) (o : String)
    {iid : String} (h : ∃ it ∈ items, it.id = iid) :
    ∃ it' ∈ transferItemOwnership items ids o, it'.id = iid := by
  rcases h with ⟨it, hmem, hid⟩
  refine ⟨if it.id ∈ ids then { it with playerId := o } else it,
    List.mem_map_of_mem _ hmem, ?_⟩
  by_cases hc : it.id ∈ ids
  · rw [if_pos hc]
    exact hid
  · rw [if_neg hc]
    exact hid

theorem owned_find_of_mem {items : List Item} {ids : List String} {pid : String}
    {iid : String} (h : itemsBelongToPlayer items ids pid = true) (hm : iid ∈ ids) :
    ∃ it, items.find? (fun x => x.id == iid) = some it ∧ it.playerId = pid := by
  have hne : ids.isEmpty = false := by
    cases ids with
    | nil => cases hm
    | cons a l => rfl
  unfold itemsBelongToPlayer at h
  rw [hne] at h
  simp only [Bool.false_eq_true, if_false, List.all_eq_true] at h
  have hmm : items.find? (fun x => x.id == iid) ∈
      ids.map (fun i => items.find? (fun x => x.id == i)) :=
    List.mem_map_of_mem _ hm
  have := h _ hmm
  cases hfind : items.find? (fun x => x.id == iid) with
  | none => rw [hfind] at this; cases this
  | some it =>
    rw [hfind] at this
    exact ⟨it, rfl, by exact eq_of_beq this⟩

theorem updated_status_of_id {trades : List Trade} {tid : String} {st : TradeStatus}
    {t' : Trade} (h : t' ∈ updateTradeStatus trades tid st) (hid : t'.id = tid) :
    t'.status = st := by
  rcases List.mem_map.mp h with ⟨t, _, heq⟩
  by_cases hc : t.id = tid
  · rw [if_pos hc] at heq
    rw [← heq]
  · rw [if_neg hc] at heq
    subst heq
    exact absurd hid hc

theorem mem_update_of_id_ne {trades : List Trade} {tid : String} {st : TradeStatus}
    {t : Trade} (h : t ∈ trades) (hid : t.id ≠ tid) :
    t ∈ updateTradeStatus trades tid st := by
  have : (if t.id = tid then { t with status := st } else t) = t := if_neg hid
  rw [← this]
  exact List.mem_map_of_mem _ h

theorem update_preserves_status_at {trades : List Trade} {bid x : String}
    {st st' : TradeStatus}
    (hpres : x = bid → st' = st)
    (h : ∀ t ∈ trades, t.id = bid → t.status = st) :
    ∀ t' ∈ updateTradeStatus trades x st', t'.id = bid → t'.status = st := by
  intro t' ht' hid
  rcases List.mem_map.mp ht' with ⟨t, hmem, heq⟩
  by_cases hc : t.id = x
  · rw [if_pos hc] at heq
    rw [← heq]
    simp only []
    rw [← heq] at hid
    exact (hpres (by rw [← hc]; exact hid)).symm ▸ rfl
  · rw [if_neg hc] at heq
    subst heq
    exact h t hmem hid

theorem conflicts_id_ne {trades : List Trade} {tid : String} {ids : List String} :
    ∀ c ∈ findConflictingTrades trades tid ids, c.id ≠ tid := by
  intro c hc
  have := (List.mem_filter.mp hc).2
  simp only [Bool.and_eq_true, Bool.not_eq_true', beq_eq_false_iff_ne] at this
  exact this.1.1

theorem mem_conflicts {trades : List Trade} {tid : String} {ids : List String}
    {B : Trade} (hmem : B ∈ trades) (hne : B.id ≠ tid)
    (hp : B.status = TradeStatus.pending)
    (href : (∃ iid ∈ B.offeredItemIds, iid ∈ ids) ∨
      ∃ iid ∈ B.requestedItemIds, iid ∈ ids) :
    B ∈ findConflictingTrades trades tid ids := by
  apply List.mem_filter.mpr
  refine ⟨hmem, ?_⟩
  simp only [Bool.and_eq_true, Bool.not_eq_true', beq_eq_false_iff_ne,
    decide_eq_true_eq, Bool.or_eq_true, List.any_eq_true, List.contains, List.elem_iff]
  exact ⟨⟨hne, hp⟩, href⟩

/-- After folding the conflict cancellations, any id that was uniformly in
status `st` and is untouched (every conflict id differs) keeps status `st`. -/
theorem foldl_cancel_keeps_status {bid : String} {st : TradeStatus} :
    ∀ (conflicts : List Trade) (ts : List Trade),
      (∀ c ∈ conflicts, c.id ≠ bid) →
      (∀ t ∈ ts, t.id = bid → t.status = st) →
      ∀ t' ∈ conflicts.foldl
          (fun ts c => updateTradeStatus ts c.id TradeStatus.cancelled) ts,
        t'.id = bid → t'.status = st := by
  intro conflicts
  induction conflicts with
  | nil => intro ts _ h; exact h
  | cons c cs ih =>
    intro ts hne h
    simp only [List.foldl_cons]
    apply ih
    · exact fun c' hc' => hne c' (List.mem_cons_of_mem _ hc')
    · exact update_preserves_status_at
        (fun hx => absurd hx (hne c (List.mem_cons_self _ _))) h

/-- Once every record carrying `bid` is cancelled, the rest of the fold keeps
them cancelled (each step only writes `cancelled`). -/
theorem foldl_cancel_stays_cancelled {bid : String} :
    ∀ (conflicts : List Trade) (ts : List Trade),
      (∀ t ∈ ts, t.id = bid → t.status = TradeStatus.cancelled) →
      ∀ t' ∈ conflicts.foldl
          (fun ts c => updateTradeStatus ts c.id TradeStatus.cancelled) ts,
        t'.id = bid → t'.status = TradeStatus.cancelled := by
  intro conflicts
  induction conflicts with
  | nil => intro ts h; exact h
  | cons c cs ih =>
    intro ts h
    simp only [List.foldl_cons]
    apply ih
    intro t' ht' hid
    rcases List.mem_map.mp ht' with ⟨t, hmem, heq⟩
    by_cases hc : t.id = c.id
    · rw [if_pos hc] at heq
      rw [← heq]
    · rw [if_neg hc] at heq
      subst heq
      exact h t hmem hid

/-- If some conflict carries `bid`, after the fold every record with id `bid`
is cancelled. -/
theorem foldl_cancel_sets_cancelled {bid : String} :
    ∀ (conflicts : List Trade) (ts : List Trade),
      (∃ c ∈ conflicts, c.id = bid) →
      ∀ t' ∈ conflicts.foldl
          (fun ts c => updateTradeStatus ts c.id TradeStatus.cancelled) ts,
        t'.id = bid → t'.status = TradeStatus.cancelled := by
  intro conflicts
  induction conflicts with
  | nil => intro ts h; rcases h with ⟨c, hc, _⟩; cases hc
  | cons c cs ih =>
    intro ts hex
    simp only [List.foldl_cons]
    by_cases hcb : c.id = bid
    · apply foldl_cancel_stays_cancelled
      intro t ht hid
      exact updated_status_of_id (hcb ▸ ht) hid
    · rcases hex with ⟨c', hc', hc'b⟩
      rcases List.mem_cons.mp hc' with h1 | h1
      · exact absurd (h1 ▸ hc'b) hcb
      · exact ih _ ⟨c', h1, hc'b⟩

/-- Inversion of the accept handler's success path: every guard passed and
the new state is `settleTrade`. -/
theorem acceptHandler_success {gs : GameState} {callerId tradeId : String}
    {trade : Trade} {m : String} {gs' : GameState}
    (hfind : getTrade gs tradeId = some trade)
    (h : acceptHandler gs callerId tradeId = (.success m, gs')) :
    trade.toPlayerId = callerId ∧ trade.status = TradeStatus.pending ∧
      itemsBelongToPlayer gs.items trade.offeredItemIds trade.fromPlayerId = true ∧
      itemsBelongToPlayer gs.items trade.requestedItemIds trade.toPlayerId = true ∧
      gs' = settleTrade gs trade callerId tradeId := by
  simp only [acceptHandler, hfind] at h
  split_ifs at h with h1 h2 h3 h4
  · cases h
  · cases h
  · cases h
  · cases h
  · have hpair := Prod.mk.injEq .. ▸ h
    refine ⟨not_not.mp h1, not_not.mp h2, ?_, ?_, hpair.2.symm⟩
    · cases hb : itemsBelongToPlayer gs.items trade.offeredItemIds trade.fromPlayerId
      · exact absurd hb h3
      · rfl
    · cases hb : itemsBelongToPlayer gs.items trade.requestedItemIds trade.toPlayerId
      · exact absurd hb h4
      · rfl

/-- The items table after `settleTrade`, written out. -/
theorem settleTrade_items (gs : GameState) (trade : Trade) (callerId tradeId : String) :
    (settleTrade gs trade callerId tradeId).items =
      transferItemOwnership (transferItemOwnership gs.items trade.offeredItemIds callerId)
        trade.requestedItemIds trade.fromPlayerId := rfl

/-- The trades table after `settleTrade`, written out. -/
theorem settleTrade_trades (gs : GameState) (trade : Trade) (callerId tradeId : String) :
    (settleTrade gs trade callerId tradeId).trades =
      (if (trade.offeredItemIds ++ trade.requestedItemIds).isEmpty then
        updateTradeStatus gs.trades tradeId TradeStatus.completed
      else
        (findConflictingTrades (updateTradeStatus gs.trades tradeId TradeStatus.completed)
            tradeId (trade.offeredItemIds ++ trade.requestedItemIds)).foldl
          (fun ts c => updateTradeStatus ts c.id TradeStatus.cancelled)
          (updateTradeStatus gs.trades tradeId TradeStatus.completed)) := rfl

/-- C3: whenever accept succeeds on a trade, afterwards every offered item id
resolves to records owned by the trade's recipient, every requested item id
to records owned by the trade's sender, and the trade's records are
COMPLETED.  In this sequential embedding each handler invocation runs to
completion against the store, so the post-state is exactly what every
subsequent read observes. -/
theorem accept_settles_ownership_and_status
    {gs : GameState} {callerId tradeId : String} {trade : Trade} {m : String}
    {gs' : GameState}
    (hfind : getTrade gs tradeId = some trade)
    (hacc : acceptHandler gs callerId tradeId = (.success m, gs')) :
    (∀ iid ∈ trade.offeredItemIds,
      (∃ it ∈ gs'.items, it.id = iid) ∧
        ∀ it ∈ gs'.items, it.id = iid → it.playerId = trade.toPlayerId) ∧
      (∀ iid ∈ trade.requestedItemIds,
        (∃ it ∈ gs'.items, it.id = iid) ∧
          ∀ it ∈ gs'.items, it.id = iid → it.playerId = trade.fromPlayerId) ∧
      ∀ t ∈ gs'.trades, t.id = tradeId → t.status = TradeStatus.completed := by
  obtain ⟨hcaller, _, hown1, hown2, hgs⟩ := acceptHandler_success hfind hacc
  subst hgs
  rw [settleTrade_items, settleTrade_trades]
  refine ⟨?_, ?_, ?_⟩
  · intro iid hiid
    have hex0 : ∃ it ∈ gs.items, it.id = iid := by
      obtain ⟨it, hf, _⟩ := owned_find_of_mem hown1 hiid
      have hp := List.find?_some hf
      exact ⟨it, List.mem_of_find?_eq_some hf, eq_of_beq hp⟩
    refine ⟨transfer_exists_id _ _ (transfer_exists_id _ _ hex0), ?_⟩
    intro it hit hitid
    by_cases hreq : iid ∈ trade.requestedItemIds
    · obtain ⟨x, hfx, hpx⟩ := owned_find_of_mem hown1 hiid
      obtain ⟨y, hfy, hpy⟩ := owned_find_of_mem hown2 hreq
      have hxy : x = y := by rw [hfx] at hfy; exact Option.some.inj hfy
      have hft : trade.fromPlayerId = trade.toPlayerId := by rw [← hpx, hxy, hpy]
      have hpl : it.playerId = trade.fromPlayerId :=
        transfer_owner_of_mem_ids hit (by rw [hitid]; exact hreq)
      rw [hpl]
      exact hft
    · have hmem1 : it ∈ transferItemOwnership gs.items trade.offeredItemIds callerId :=
        transfer_mem_of_not_mem_ids hit (by rw [hitid]; exact hreq)
      have hpl : it.playerId = callerId :=
        transfer_owner_of_mem_ids hmem1 (by rw [hitid]; exact hiid)
      rw [hpl]
      exact hcaller.symm
  · intro iid hiid
    have hex0 : ∃ it ∈ gs.items, it.id = iid := by
      obtain ⟨it, hf, _⟩ := owned_find_of_mem hown2 hiid
      have hp := List.find?_some hf
      exact ⟨it, List.mem_of_find?_eq_some hf, eq_of_beq hp⟩
    refine ⟨transfer_exists_id _ _ (transfer_exists_id _ _ hex0), ?_⟩
    intro it hit hitid
    exact transfer_owner_of_mem_ids hit (by rw [hitid]; exact hiid)
  · intro t ht htid
    by_cases hmv : (trade.offeredItemIds ++ trade.requestedItemIds).isEmpty
    · rw [if_pos hmv] at ht
      exact updated_status_of_id ht htid
    · rw [if_neg hmv] at ht
      exact foldl_cancel_keeps_status _ _ conflicts_id_ne
        (fun t' ht' hid => updated_status_of_id ht' hid) t ht htid

/-- C4: if accepting trade A succeeds, every other trade that was PENDING and
references one of A's items (in either list) ends up CANCELLED. -/
theorem accept_cancels_conflicting_pending_trades
    {gs : GameState} {callerId tradeId : String} {trade B : Trade} {m : String}
    {gs' : GameState} {iid : String}
    (hfind : getTrade gs tradeId = some trade)
    (hacc : acceptHandler gs callerId tradeId = (.success m, gs'))
    (hB : B ∈ gs.trades) (hBne : B.id ≠ tradeId)
    (hBp : B.status = TradeStatus.pending)
    (hiid : iid ∈ trade.offeredItemIds ++ trade.requestedItemIds)
    (hBref : iid ∈ B.offeredItemIds ∨ iid ∈ B.requestedItemIds) :
    ∀ t ∈ gs'.trades, t.id = B.id → t.status = TradeStatus.cancelled := by
  obtain ⟨_, _, _, _, hgs⟩ := acceptHandler_success hfind hacc
  subst hgs
  rw [settleTrade_trades]
  have hmv : ¬ (trade.offeredItemIds ++ trade.requestedItemIds).isEmpty = true := by
    cases hlist : trade.offeredItemIds ++ trade.requestedItemIds with
    | nil => rw [hlist] at hiid; cases hiid
    | cons a l => simp
  rw [if_neg hmv]
  have hB1 : B ∈ updateTradeStatus gs.trades tradeId TradeStatus.completed :=
    mem_update_of_id_ne hB hBne
  have hBc : B ∈ findConflictingTrades
      (updateTradeStatus gs.trades tradeId TradeStatus.completed) tradeId
      (trade.offeredItemIds ++ trade.requestedItemIds) := by
    apply mem_conflicts hB1 hBne hBp
    rcases hBref with h | h
    · exact Or.inl ⟨iid, h, hiid⟩
    · exact Or.inr ⟨iid, h, hiid⟩
  exact foldl_cancel_sets_cancelled _ _ ⟨B, hBc, rfl⟩

/-- C7: when the trade is found, addressed to the caller and PENDING, but
either ownership re-validation fails, accept returns the corresponding
ownership error and the state — items and trades alike — is exactly the
input state. -/
theorem accept_ownership_failure_leaves_state
    {gs : GameState} {callerId tradeId : String} {trade : Trade}
    (hfind : getTrade gs tradeId = some trade)
    (hcaller : trade.toPlayerId = callerId)
    (hpend : trade.status = TradeStatus.pending)
    (hfail :
      itemsBelongToPlayer gs.items trade.offeredItemIds trade.fromPlayerId = false ∨
        itemsBelongToPlayer gs.items trade.requestedItemIds trade.toPlayerId = false) :
    acceptHandler gs callerId tradeId =
        (.badRequest "Offered items are no longer owned by the sender.", gs) ∨
      acceptHandler gs callerId tradeId =
        (.badRequest "Requested items are no longer owned by you.", gs) := by
  have hc1 : ¬ trade.toPlayerId ≠ callerId := not_not.mpr hcaller
  have hc2 : ¬ trade.status ≠ TradeStatus.pending := not_not.mpr hpend
  cases hb1 : itemsBelongToPlayer gs.items trade.offeredItemIds trade.fromPlayerId with
  | false =>
    left
    simp only [acceptHandler, hfind]
    rw [if_neg hc1, if_neg hc2, if_pos hb1]
  | true =>
    right
    have hb2 : itemsBelongToPlayer gs.items trade.requestedItemIds trade.toPlayerId
        = false := by
      rcases hfail with h | h
      · rw [hb1] at h; cases h
      · exact h
    simp only [acceptHandler, hfind]
    rw [if_neg hc1, if_neg hc2, if_neg (by simp [hb1]), if_pos hb2]

/-! Concrete scenarios instantiating the accept-handler theorems. -/

def itemC3a : Item :=
  { id := "i1", playerId := "p1", collectableId := "c1", quality := 1, chance := 0,
    foundAt := "" }

def itemC3b : Item :=
  { id := "i2", playerId := "p2", collectableId := "c2", quality := 1, chance := 0,
    foundAt := "" }

def tradeC3 : Trade :=
  { id := "tC", fromPlayerId := "p1", toPlayerId := "p2",
    offeredItemIds := ["i1"], requestedItemIds := ["i2"],
    status := TradeStatus.pending }

def stateC3 : GameState := { items := [itemC3a, itemC3b], trades := [tradeC3] }

def stateC3After : GameState :=
  { items := [{ itemC3a with playerId := "p2" }, { itemC3b with playerId := "p1" }],
    trades := [{ tradeC3 with status := TradeStatus.completed }] }

theorem accept_settles_ownership_and_status_witness :
    getTrade stateC3 "tC" = some tradeC3 ∧
      ((∀ iid ∈ tradeC3.offeredItemIds,
        (∃ it ∈ stateC3After.items, it.id = iid) ∧
          ∀ it ∈ stateC3After.items, it.id = iid → it.playerId = tradeC3.toPlayerId) ∧
        (∀ iid ∈ tradeC3.requestedItemIds,
          (∃ it ∈ stateC3After.items, it.id = iid) ∧
            ∀ it ∈ stateC3After.items, it.id = iid → it.playerId = tradeC3.fromPlayerId) ∧
        ∀ t ∈ stateC3After.trades, t.id = "tC" → t.status = TradeStatus.completed) :=
  ⟨by decide,
    @accept_settles_ownership_and_status stateC3 "p2" "tC" tradeC3
      "Trade completed successfully" stateC3After (by decide) (by decide)⟩

def tradeC4main : Trade :=
  { id := "tD", fromPlayerId := "p1", toPlayerId := "p2",
    offeredItemIds := ["i1"], requestedItemIds := ["i2"],
    status := TradeStatus.pending }

def tradeC4other : Trade :=
  { id := "tE", fromPlayerId := "p1", toPlayerId := "p2",
    offeredItemIds := ["i1"], requestedItemIds := [],
    status := TradeStatus.pending }

def stateC4 : GameState :=
  { items := [itemC3a, itemC3b], trades := [tradeC4main, tradeC4other] }

def stateC4After : GameState :=
  { items := [{ itemC3a with playerId := "p2" }, { itemC3b with playerId := "p1" }],
    trades := [{ tradeC4main with status := TradeStatus.completed },
      { tradeC4other with status := TradeStatus.cancelled }] }

theorem accept_cancels_conflicting_pending_trades_witness :
    acceptHandler stateC4 "p2" "tD" =
        (.success "Trade completed successfully", stateC4After) ∧
      ∀ t ∈ stateC4After.trades, t.id = "tE" → t.status = TradeStatus.cancelled :=
  ⟨by decide,
    @accept_cancels_conflicting_pending_trades stateC4 "p2" "tD" tradeC4main
      tradeC4other "Trade completed successfully" stateC4After "i1"
      (by decide) (by decide) (by decide) (by decide) (by decide) (by decide)
      (Or.inl (by decide))⟩

def itemC7 : Item :=
  { id := "i3", playerId := "pz", collectableId := "c3", quality := 1, chance := 0,
    foundAt := "" }

def tradeC7 : Trade :=
  { id := "tF", fromPlayerId := "p1", toPlayerId := "p2",
    offeredItemIds := ["i3"], requestedItemIds := [],
    status := TradeStatus.pending }

def stateC7 : GameState := { items := [itemC7], trades := [tradeC7] }

theorem accept_ownership_failure_leaves_state_witness :
    (itemsBelongToPlayer stateC7.items tradeC7.offeredItemIds tradeC7.fromPlayerId
        = false) ∧
      (acceptHandler stateC7 "p2" "tF" =
          (.badRequest "Offered items are no longer owned by the sender.", stateC7) ∨
        acceptHandler stateC7 "p2" "tF" =
          (.badRequest "Requested items are no longer owned by you.", stateC7)) :=
  ⟨by decide,
    @accept_ownership_failure_leaves_state stateC7 "p2" "tF" tradeC7
      (by decide) (by decide) (by decide) (Or.inl (by decide))⟩

/-- C1: the claim asserts that on a trade in a terminal state every further
accept/reject/cancel fails with an invalid-state error and leaves the record
unchanged.  The cancel handler of `src/handlers/trades/cancel.ts` has no
status guard: invoked by the sender on a COMPLETED trade it reports success
and rewrites the status to REJECTED, moving the trade out of a terminal
state. -/
theorem cancel_mutates_terminal_trade :
    (cancelHandler stateDoneA "p1" "tA").1 = HandlerResult.success "Trade cancelled" ∧
      (cancelHandler stateDoneA "p1" "tA").2.trades =
        [{ tradeDoneA with status := TradeStatus.rejected }] := by
  constructor <;> rfl

/-- C2: the claim asserts that a sender's cancel of a PENDING trade sets the
status to CANCELLED and that cancel requires the trade to be PENDING.  The
cancel handler of `src/handlers/trades/cancel.ts` instead reports success and
stores status REJECTED. -/
theorem cancel_pending_trade_stores_rejected :
    (cancelHandler statePendB "p1" "tB").1 = HandlerResult.success "Trade cancelled" ∧
      (cancelHandler statePendB "p1" "tB").2.trades.map Trade.status =
        [TradeStatus.rejected] ∧
      TradeStatus.rejected ≠ TradeStatus.cancelled := by
  refine ⟨rfl, rfl, ?_⟩
  decide

/-- C10: `itemsBelongToPlayer` on an empty id list returns `true` for every
item store and every expected owner — the guard short-circuits before any
store lookup, so a trade with an empty offered or requested list passes
accept-time ownership re-validation vacuously. -/
theorem items_belong_vacuous_on_empty (items : List Item) (pid : String) :
    itemsBelongToPlayer items [] pid = true := rfl

/-! The item roller, from the `generateItem` module (the seeder/backend item
generation file shared by `scan` and the test-data seeder). -/

/-- A rarity tier, from `Rarity` in `src/types/index.ts`. -/
structure Rarity where
  id : ℤ
  name : String
  minChance : ℚ
  maxChance : ℚ
  color : String
  deriving DecidableEq

/-- A catalog template, from `Collectable` in `src/types/index.ts`
(`imageUrl` omitted; `createdAt` opaque). -/
structure Collectable where
  id : String
  name : String
  description : String
  rarity : ℤ
  createdAt : String
  deriving DecidableEq

/-- `Number(x.toFixed(18))`: round to the closest multiple of `10⁻¹⁸`
(ties toward the larger value, as `toFixed` rounds decimal digits). -/
def round18 (x : ℚ) : ℚ := (round (x * 10 ^ 18) : ℚ) / 10 ^ 18

/-- `rollQuality`: `Math.min(Math.floor(100 * Math.pow(x, 6.66)) + 1, 100)`.
The irrational-exponent power is not rational-valued, so the draw is
parametrised directly by `pw`, the value of `Math.pow(Math.random(), 6.66)`,
which lies in `[0,1)` whenever the underlying draw does. -/
def rollQuality (pw : ℚ) : ℤ := min (⌊(100 : ℚ) * pw⌋ + 1) 100

/-- The clamped interpolation factor of `calcChance`:
`Math.min(1, Math.max(0, (quality + Math.random()) / 101))`. -/
def scaledQuality (quality : ℤ) (r1 : ℚ) : ℚ :=
  min 1 (max 0 (((quality : ℚ) + r1) / 101))

/-- `baseChance` inside `calcChance`: linear interpolation between the
tier's bounds. -/
def baseChance (rarity : Rarity) (quality : ℤ) (r1 : ℚ) : ℚ :=
  rarity.minChance + (rarity.maxChance - rarity.minChance) * scaledQuality quality r1

/-- `calcChance(rarity, quality)` with the two `Math.random()` draws made
explicit: base interpolation, bounded noise, then `toFixed(18)` rounding. -/
def calcChance (rarity : Rarity) (quality : ℤ) (r1 r2 : ℚ) : ℚ :=
  round18 (baseChance rarity quality r1 +
    r2 * min (rarity.maxChance - baseChance rarity quality r1)
      ((rarity.maxChance - rarity.minChance) * (1 / 10 ^ 8)))

/-- `computeCollectableWeight`: the average of the tier's chance range. -/
def computeCollectableWeight (rarity : Rarity) : ℚ :=
  (rarity.minChance + rarity.maxChance) / 2

/-- The per-candidate weights built in `rollCollectable`: the tier's average
chance when the rarity id resolves, weight 1 otherwise. -/
def collectableWeights (collectables : List Collectable) (rarities : List Rarity) :
    List ℚ :=
  collectables.map (fun c =>
    match rarities.find? (fun r => r.id == c.rarity) with
    | some r => computeCollectableWeight r
    | none => 1)

/-- The normalized weights of `rollCollectable` (`w / totalWeight`). -/
def normalizedWeights (collectables : List Collectable) (rarities : List Rarity) :
    List ℚ :=
  (collectableWeights collectables rarities).map
    (fun w => w / (collectableWeights collectables rarities).sum)

/-- The subtraction loop of `rollCollectable`: walk the candidates zipped
with their normalized weights, subtracting each weight from the running
remainder and returning the first candidate at which it drops to `≤ 0`;
`none` when the loop exhausts the list. -/
def rouletteStep : List (Collectable × ℚ) → ℚ → Option Collectable
  | [], _ => none
  | (c, w) :: rest, r =>
      if r - w ≤ 0 then some c else rouletteStep rest (r - w)

/-- `rollCollectable(collectables, rarities)` with the roulette draw `u` and
the fallback draw `uFallback` explicit.  An empty pool throws in the source
(`none` here); when the loop exhausts, the source returns
`collectables[Math.floor(Math.random() * collectables.length)]` — a random
candidate, not the last one. -/
def rollCollectable (collectables : List Collectable) (rarities : List Rarity)
    (u uFallback : ℚ) : Option Collectable :=
  if collectables.isEmpty then none
  else
    match rouletteStep (collectables.zip (normalizedWeights collectables rarities)) u with
    | some c => some c
    | none => collectables.get? (⌊uFallback * (collectables.length : ℚ)⌋).toNat

/-- `generateItem(playerId, collectables, rarities, foundAt)` with all random
draws explicit (`u`, `uFallback` for collectable selection, `pw` for the
quality power, `r1`, `r2` for `calcChance`) and the fresh uuid passed in.
Returns `none` where the source throws (empty pool, or the winning
collectable's rarity id resolving to no tier). -/
def generateItem (playerId : String) (collectables : List Collectable)
    (rarities : List Rarity) (u uFallback pw r1 r2 : ℚ)
    (newId foundAt : String) : Option Item :=
  match rollCollectable collectables rarities u uFallback with
  | none => none
  | some collectable =>
    match rarities.find? (fun r => r.id == collectable.rarity) with
    | none => none
    | some rarity =>
      let quality := rollQuality pw
      some { id := newId, playerId := playerId, collectableId := collectable.id,
             quality := quality, chance := calcChance rarity quality r1 r2,
             foundAt := foundAt }

/-! Bounds on the chance computation. -/

theorem scaledQuality_nonneg (quality : ℤ) (r1 : ℚ) : 0 ≤ scaledQuality quality r1 :=
  le_min (by norm_num) (le_max_left 0 _)

theorem scaledQuality_le_one (quality : ℤ) (r1 : ℚ) : scaledQuality quality r1 ≤ 1 :=
  min_le_left _ _

theorem baseChance_lower (rarity : Rarity) (quality : ℤ) (r1 : ℚ)
    (hle : rarity.minChance ≤ rarity.maxChance) :
    rarity.minChance ≤ baseChance rarity quality r1 := by
  have hs0 := scaledQuality_nonneg quality r1
  have hmul : 0 ≤ (rarity.maxChance - rarity.minChance) * scaledQuality quality r1 :=
    mul_nonneg (by linarith) hs0
  unfold baseChance
  linarith

theorem baseChance_upper (rarity : Rarity) (quality : ℤ) (r1 : ℚ)
    (hle : rarity.minChance ≤ rarity.maxChance) :
    baseChance rarity quality r1 ≤ rarity.maxChance := by
  have hs1 := scaledQuality_le_one quality r1
  have hmul : (rarity.maxChance - rarity.minChance) * scaledQuality quality r1 ≤
      (rarity.maxChance - rarity.minChance) * 1 :=
    mul_le_mul_of_nonneg_left hs1 (by linarith)
  unfold baseChance
  linarith

theorem round18_mono {x y : ℚ} (h : x ≤ y) : round18 x ≤ round18 y := by
  unfold round18
  have hr : round (x * 10 ^ 18) ≤ round (y * 10 ^ 18) := by
    rw [round_eq, round_eq]
    exact Int.floor_mono (by linarith)
  have hq : ((round (x * 10 ^ 18) : ℤ) : ℚ) ≤ ((round (y * 10 ^ 18) : ℤ) : ℚ) := by
    exact_mod_cast hr
  exact (div_le_div_iff_of_pos_right (by positivity)).mpr hq

theorem round18_fix (a : ℤ) : round18 ((a : ℚ) / 10 ^ 18) = (a : ℚ) / 10 ^ 18 := by
  unfold round18
  rw [div_mul_cancel₀ _ (by norm_num : ((10 : ℚ) ^ 18) ≠ 0), round_intCast]

theorem calcChance_bounds (rarity : Rarity) (quality : ℤ) (r1 r2 : ℚ)
    (hle : rarity.minChance ≤ rarity.maxChance)
    (hmin : ∃ a : ℤ, rarity.minChance = (a : ℚ) / 10 ^ 18)
    (hmax : ∃ b : ℤ, rarity.maxChance = (b : ℚ) / 10 ^ 18)
    (h20 : 0 ≤ r2) (h21 : r2 ≤ 1) :
    rarity.minChance ≤ calcChance rarity quality r1 r2 ∧
      calcChance rarity quality r1 r2 ≤ rarity.maxChance := by
  have hb1 := baseChance_lower rarity quality r1 hle
  have hb2 := baseChance_upper rarity quality r1 hle
  have hm0 : 0 ≤ min (rarity.maxChance - baseChance rarity quality r1)
      ((rarity.maxChance - rarity.minChance) * (1 / 10 ^ 8)) :=
    le_min (by linarith) (mul_nonneg (by linarith) (by norm_num))
  have hm1 : min (rarity.maxChance - baseChance rarity quality r1)
      ((rarity.maxChance - rarity.minChance) * (1 / 10 ^ 8)) ≤
      rarity.maxChance - baseChance rarity quality r1 := min_le_left _ _
  have hn0 : 0 ≤ r2 * min (rarity.maxChance - baseChance rarity quality r1)
      ((rarity.maxChance - rarity.minChance) * (1 / 10 ^ 8)) := mul_nonneg h20 hm0
  have hn1 : r2 * min (rarity.maxChance - baseChance rarity quality r1)
      ((rarity.maxChance - rarity.minChance) * (1 / 10 ^ 8)) ≤
      rarity.maxChance - baseChance rarity quality r1 := by
    have := mul_le_mul_of_nonneg_right h21 hm0
    rw [one_mul] at this
    exact le_trans this hm1
  obtain ⟨a, ha⟩ := hmin
  obtain ⟨b, hb⟩ := hmax
  unfold calcChance
  constructor
  · have hlow : rarity.minChance ≤ baseChance rarity quality r1 +
        r2 * min (rarity.maxChance - baseChance rarity quality r1)
          ((rarity.maxChance - rarity.minChance) * (1 / 10 ^ 8)) := by linarith
    calc rarity.minChance = round18 rarity.minChance := by rw [ha, round18_fix]
      _ ≤ _ := round18_mono hlow
  · have hhigh : baseChance rarity quality r1 +
        r2 * min (rarity.maxChance - baseChance rarity quality r1)
          ((rarity.maxChance - rarity.minChance) * (1 / 10 ^ 8)) ≤
        rarity.maxChance := by linarith
    calc _ ≤ round18 rarity.maxChance := round18_mono hhigh
      _ = rarity.maxChance := by rw [hb, round18_fix]

/-- C6: any item the roller produces has its `chance` inside the chance
range of the winning collectable's rarity tier.  The tier's bounds are
assumed ordered and expressible with at most 18 fractional decimal digits
(every tier of the repository's rarity table is), so `toFixed(18)` rounding
cannot push the value outside the range; the `Math.random()` draw feeding
the noise term lies in `[0,1)`. -/
theorem item_roller_chance_bounds
    {playerId : String} {collectables : List Collectable} {rarities : List Rarity}
    {u uFallback pw r1 r2 : ℚ} {newId foundAt : String}
    {item : Item} {c : Collectable} {rarity : Rarity}
    (hroll : rollCollectable collectables rarities u uFallback = some c)
    (hrar : rarities.find? (fun r => r.id == c.rarity) = some rarity)
    (hgen : generateItem playerId collectables rarities u uFallback pw r1 r2
      newId foundAt = some item)
    (hle : rarity.minChance ≤ rarity.maxChance)
    (hmin : ∃ a : ℤ, rarity.minChance = (a : ℚ) / 10 ^ 18)
    (hmax : ∃ b : ℤ, rarity.maxChance = (b : ℚ) / 10 ^ 18)
    (h20 : 0 ≤ r2) (h21 : r2 ≤ 1) :
    item.collectableId = c.id ∧
      rarity.minChance ≤ item.chance ∧ item.chance ≤ rarity.maxChance := by
  simp only [generateItem, hroll, hrar] at hgen
  obtain rfl := Option.some.inj hgen
  exact ⟨rfl, calcChance_bounds rarity (rollQuality pw) r1 r2 hle hmin hmax h20 h21⟩

def rarW : Rarity :=
  { id := 1, name := "w", minChance := 1 / 2, maxChance := 1 / 2, color := "" }

def colW : Collectable :=
  { id := "c", name := "n", description := "d", rarity := 1, createdAt := "" }

def itemW : Item :=
  { id := "i", playerId := "p", collectableId := "c", quality := 1, chance := 1 / 2,
    foundAt := "now" }

theorem item_roller_chance_bounds_witness :
    generateItem "p" [colW] [rarW] (1 / 2) 0 0 0 0 "i" "now" = some itemW ∧
      rarW.minChance ≤ itemW.chance ∧ itemW.chance ≤ rarW.maxChance := by
  have hroll : rollCollectable [colW] [rarW] (1 / 2) 0 = some colW := by
    norm_num [rollCollectable, normalizedWeights, collectableWeights,
      computeCollectableWeight, rouletteStep, rarW, colW, List.find?]
  have hrar : List.find? (fun r => r.id == colW.rarity) [rarW] = some rarW := by
    norm_num [colW, rarW, List.find?]
  have hgen : generateItem "p" [colW] [rarW] (1 / 2) 0 0 0 0 "i" "now"
      = some itemW := by
    simp only [generateItem, hroll, hrar]
    norm_num [rollQuality, calcChance, baseChance, scaledQuality, round18,
      rarW, colW, itemW, min_def, max_def]
  exact ⟨hgen,
    (@item_roller_chance_bounds "p" [colW] [rarW] (1 / 2) 0 0 0 0 "i" "now"
      itemW colW rarW hroll hrar hgen (by norm_num [rarW])
      ⟨5 * 10 ^ 17, by norm_num [rarW]⟩ ⟨5 * 10 ^ 17, by norm_num [rarW]⟩
      (by norm_num) (by norm_num)).2⟩

/-! The roulette fallback of `rollCollectable`. -/

def rarZero : Rarity :=
  { id := 0, name := "zero", minChance := 0, maxChance := 0, color := "" }

def colZa : Collectable :=
  { id := "c0", name := "", description := "", rarity := 0, createdAt := "" }

def colZb : Collectable :=
  { id := "c1", name := "", description := "", rarity := 0, createdAt := "" }

/-- C8 counterexample: with a two-candidate pool whose weights are all zero
the roulette loop never drops the remainder to `≤ 0`, and the source falls
back to `collectables[Math.floor(Math.random() * length)]`.  With a fallback
draw of `0` it returns the FIRST candidate, not the last one the claim
promises. -/
theorem roll_collectable_fallback_not_last :
    rollCollectable [colZa, colZb] [rarZero] (1 / 2) 0 = some colZa ∧
      [colZa, colZb].getLast? = some colZb ∧ colZa ≠ colZb := by
  refine ⟨?_, by decide, by decide⟩
  norm_num [rollCollectable, normalizedWeights, collectableWeights,
    computeCollectableWeight, rouletteStep, rarZero, colZa, colZb, List.find?]

/-- C8 (amended): when the roulette loop exhausts the pool without the
remainder dropping to `≤ 0`, `rollCollectable` returns the candidate at
index `⌊uFallback · length⌋` — a uniformly drawn fallback candidate — and
for any fallback draw in `[0,1)` this index is in range, so some candidate
is always returned. -/
theorem roll_collectable_fallback_random_index
    {collectables : List Collectable} {rarities : List Rarity} {u uFallback : ℚ}
    (hne : collectables ≠ [])
    (hexhaust : rouletteStep
      (collectables.zip (normalizedWeights collectables rarities)) u = none)
    (h0 : 0 ≤ uFallback) (h1 : uFallback < 1) :
    rollCollectable collectables rarities u uFallback =
        collectables.get? (⌊uFallback * (collectables.length : ℚ)⌋).toNat ∧
      ∃ c, rollCollectable collectables rarities u uFallback = some c := by
  have hie : collectables.isEmpty = false := by
    cases collectables with
    | nil => exact absurd rfl hne
    | cons a l => rfl
  have heq : rollCollectable collectables rarities u uFallback =
      collectables.get? (⌊uFallback * (collectables.length : ℚ)⌋).toNat := by
    unfold rollCollectable
    rw [hie]
    simp only [Bool.false_eq_true, if_false]
    rw [hexhaust]
  refine ⟨heq, ?_⟩
  have hlen : 0 < (collectables.length : ℚ) := by
    have hl : 0 < collectables.length := List.length_pos.mpr hne
    exact_mod_cast hl
  have hfl0 : 0 ≤ ⌊uFallback * (collectables.length : ℚ)⌋ :=
    Int.floor_nonneg.mpr (mul_nonneg h0 (le_of_lt hlen))
  have hflt : ⌊uFallback * (collectables.length : ℚ)⌋ < collectables.length := by
    apply Int.floor_lt.mpr
    have hmul : uFallback * (collectables.length : ℚ) < 1 * (collectables.length : ℚ) :=
      mul_lt_mul_of_pos_right h1 hlen
    rw [one_mul] at hmul
    exact_mod_cast hmul
  have hnat : (⌊uFallback * (collectables.length : ℚ)⌋).toNat < collectables.length := by
    omega
  refine ⟨collectables.get ⟨_, hnat⟩, ?_⟩
  rw [heq]
  exact List.get?_eq_get hnat

theorem roll_collectable_fallback_random_index_witness :
    rollCollectable [colZa, colZb] [rarZero] (1 / 2) 0 =
        [colZa, colZb].get? (⌊(0 : ℚ) * ([colZa, colZb].length : ℚ)⌋).toNat ∧
      ∃ c, rollCollectable [colZa, colZb] [rarZero] (1 / 2) 0 = some c :=
  @roll_collectable_fallback_random_index [colZa, colZb] [rarZero] (1 / 2) 0
    (by decide)
    (by norm_num [rouletteStep, normalizedWeights, collectableWeights,
      computeCollectableWeight, rarZero, colZa, colZb, List.find?])
    (by norm_num) (by norm_num)

/-! The catalog generator, `src/scripts/seeder/catalog.ts`. -/

/-- A per-session rarity tier as built by `assignSessionChances` in
`catalog.ts`: name, color and the concrete chance drawn for this session. -/
structure SessionTier where
  name : String
  color : String
  chance : ℚ
  deriving DecidableEq

/-- A catalog entry as pushed by `generateCatalogItems`. -/
structure CatalogItem where
  itemId : String
  name : String
  description : String
  rarity : String
  rarityChance : ℚ
  rarityColor : String
  createdAt : String
  deriving DecidableEq

/-- The total of the session chances:
`sessionTiers.reduce((sum, tier) => sum + tier.chance, 0)`. -/
def sessionTotal (tiers : List SessionTier) : ℚ :=
  (tiers.map (fun t => t.chance)).sum

/-- The accumulator loop of `pickWeightedRarity`: add each tier's chance to
the accumulator and return the first tier with `r ≤ acc`; when the loop
exhausts, the source returns `sessionTiers[sessionTiers.length - 1]` — the
last element — and JS `undefined` (`none`) on an empty list. -/
def pickLoop : List SessionTier → ℚ → ℚ → Option SessionTier
  | [], _, _ => none
  | t :: ts, r, acc =>
    if r ≤ acc + t.chance then some t
    else
      match pickLoop ts r (acc + t.chance) with
      | some x => some x
      | none => some t

/-- `pickWeightedRarity(sessionTiers)` with the `Math.random()` draw `u`
explicit: `r = u * total`, then the accumulator walk. -/
def pickWeightedRarity (sessionTiers : List SessionTier) (u : ℚ) :
    Option SessionTier :=
  pickLoop sessionTiers (u * sessionTotal sessionTiers) 0

/-- Modelled from the spec: the §4.2 description of weighted roulette
selection — normalize the weights `w` to sum 1, draw `r`, subtract each
normalized weight in order, return the first element where the remainder
drops to `≤ 0`, and fall back to the last element.  This is the loop. -/
def specLoop {α : Type} (w : α → ℚ) (total : ℚ) : List α → ℚ → Option α
  | [], _ => none
  | x :: xs, r =>
    if r - w x / total ≤ 0 then some x
    else
      match specLoop w total xs (r - w x / total) with
      | some y => some y
      | none => some x

/-- Modelled from the spec: the full §4.2 roulette over a weight function. -/
def specRoulette {α : Type} (w : α → ℚ) (xs : List α) (u : ℚ) : Option α :=
  specLoop w ((xs.map w).sum) xs u

/-- Modelled from the spec: the claimed filler weighting — each tier weighted
by `(minChance + maxChance) / 2` of the rarity tier it derives from (session
tiers paired with their configured rarity tiers). -/
def specAvgPick (pairs : List (Rarity × SessionTier)) (u : ℚ) : Option SessionTier :=
  (specRoulette (fun p => (p.1.minChance + p.1.maxChance) / 2) pairs u).map
    (fun p => p.2)

theorem pickLoop_eq_specLoop {total : ℚ} (hpos : 0 < total) :
    ∀ (ts : List SessionTier) (u acc : ℚ),
      pickLoop ts (u * total) acc =
        specLoop (fun t => t.chance) total ts (u - acc / total) := by
  intro ts
  induction ts with
  | nil => intro u acc; rfl
  | cons t ts ih =>
    intro u acc
    have hcond : (u * total ≤ acc + t.chance) ↔
        (u - acc / total - t.chance / total ≤ 0) := by
      rw [sub_sub, ← add_div, sub_nonpos, le_div_iff₀ hpos]
    have harg : u - acc / total - t.chance / total = u - (acc + t.chance) / total := by
      rw [sub_sub, ← add_div]
    by_cases hc : u * total ≤ acc + t.chance
    · simp only [pickLoop, specLoop, if_pos hc, if_pos (hcond.mp hc)]
    · simp only [pickLoop, specLoop, if_neg hc, if_neg (fun h => hc (hcond.mpr h))]
      rw [harg, ih u (acc + t.chance)]
      cases specLoop (fun t => t.chance) total ts (u - (acc + t.chance) / total) <;> rfl

/-- C5 (amended): the tier selector used for every filler catalog entry is
the spec's normalized cumulative-sum roulette with each tier weighted by the
SESSION CHANCE drawn for it (`tier.chance`) — not by the average
`(minChance + maxChance) / 2` of the configured range. -/
theorem filler_pick_weighted_by_session_chance
    (tiers : List SessionTier) (u : ℚ) (hpos : 0 < sessionTotal tiers) :
    pickWeightedRarity tiers u = specRoulette (fun t => t.chance) tiers u := by
  unfold pickWeightedRarity specRoulette
  have h := pickLoop_eq_specLoop hpos tiers u 0
  rw [zero_div, sub_zero] at h
  exact h

def stW1 : SessionTier := { name := "T1", color := "", chance := 1 / 10 }

def stW2 : SessionTier := { name := "T2", color := "", chance := 3 / 10 }

theorem filler_pick_weighted_by_session_chance_witness :
    pickWeightedRarity [stW1, stW2] (1 / 2) =
      specRoulette (fun t => t.chance) [stW1, stW2] (1 / 2) :=
  filler_pick_weighted_by_session_chance [stW1, stW2] (1 / 2)
    (by norm_num [sessionTotal, stW1, stW2])

def rtAvg1 : Rarity :=
  { id := 0, name := "T1", minChance := 1 / 10, maxChance := 9 / 10, color := "" }

def rtAvg2 : Rarity :=
  { id := 1, name := "T2", minChance := 3 / 10, maxChance := 3 / 10, color := "" }

/-- C5 counterexample: with session chances validly drawn inside each tier's
configured range, the source's `pickWeightedRarity` — weighted by the drawn
session chance — picks tier "T2" at draw `1/2`, while the claim's
average-of-range weighting picks "T1". -/
theorem filler_pick_not_weighted_by_average :
    (rtAvg1.minChance ≤ stW1.chance ∧ stW1.chance ≤ rtAvg1.maxChance) ∧
      (rtAvg2.minChance ≤ stW2.chance ∧ stW2.chance ≤ rtAvg2.maxChance) ∧
      (pickWeightedRarity [stW1, stW2] (1 / 2)).map (fun t => t.name) = some "T2" ∧
      (specAvgPick [(rtAvg1, stW1), (rtAvg2, stW2)] (1 / 2)).map (fun t => t.name)
        = some "T1" ∧
      ("T2" : String) ≠ "T1" := by
  refine ⟨⟨by norm_num [rtAvg1, stW1], by norm_num [rtAvg1, stW1]⟩,
    ⟨by norm_num [rtAvg2, stW2], by norm_num [rtAvg2, stW2]⟩, ?_, ?_, by decide⟩
  · norm_num [pickWeightedRarity, pickLoop, sessionTotal, stW1, stW2]
  · norm_num [specAvgPick, specRoulette, specLoop, rtAvg1, rtAvg2, stW1, stW2]

/-- One catalog entry as pushed by the generator: fresh id and flavor text
for slot `i`, tier fields copied from the picked session tier. -/
def mkCatalogItem (idF nameF : ℕ → String) (descF : ℕ → String → String)
    (now : String) (i : ℕ) (tier : SessionTier) : CatalogItem :=
  { itemId := idF i, name := nameF i, description := descF i tier.name,
    rarity := tier.name, rarityChance := tier.chance, rarityColor := tier.color,
    createdAt := now }

/-- The guaranteed one-item-per-tier prefix (`sessionTiers.forEach`), `i`
being the running slot index. -/
def guaranteedItems (idF nameF : ℕ → String) (descF : ℕ → String → String)
    (now : String) : ℕ → List SessionTier → List CatalogItem
  | _, [] => []
  | i, t :: ts =>
    mkCatalogItem idF nameF descF now i t ::
      guaranteedItems idF nameF descF now (i + 1) ts

/-- The filler loop `for (let i = sessionTiers.length; i < totalItems; i++)`,
with `u i` the roulette draw of iteration `i` and `k` the remaining
iteration count; `none` models the TypeError thrown when
`pickWeightedRarity` returns `undefined` on an empty tier list. -/
def fillerItems (tiers : List SessionTier) (u : ℕ → ℚ) (idF nameF : ℕ → String)
    (descF : ℕ → String → String) (now : String) :
    ℕ → ℕ → Option (List CatalogItem)
  | _, 0 => some []
  | i, k + 1 =>
    match pickWeightedRarity tiers (u i) with
    | none => none
    | some tier =>
      match fillerItems tiers u idF nameF descF now (i + 1) k with
      | none => none
      | some rest => some (mkCatalogItem idF nameF descF now i tier :: rest)

/-- `generateCatalogItems(totalItems, sessionTiers)` with randomness and
id/flavor-text/timestamp generation explicit.  `totalItems` is an integer;
the filler loop runs `max 0 (totalItems - length)` times. -/
def generateCatalogItems (totalItems : ℤ) (sessionTiers : List SessionTier)
    (u : ℕ → ℚ) (idF nameF : ℕ → String) (descF : ℕ → String → String)
    (now : String) : Option (List CatalogItem) :=
  match fillerItems sessionTiers u idF nameF descF now sessionTiers.length
      (totalItems - sessionTiers.length).toNat with
  | none => none
  | some fillers =>
    some (guaranteedItems idF nameF descF now 0 sessionTiers ++ fillers)

theorem pickLoop_cons_isSome (t : SessionTier) (ts : List SessionTier) (r acc : ℚ) :
    ∃ x, pickLoop (t :: ts) r acc = some x := by
  by_cases hc : r ≤ acc + t.chance
  · exact ⟨t, by simp only [pickLoop, if_pos hc]⟩
  · rcases hrec : pickLoop ts r (acc + t.chance) with _ | x
    · exact ⟨t, by simp only [pickLoop, if_neg hc, hrec]⟩
    · exact ⟨x, by simp only [pickLoop, if_neg hc, hrec]⟩

theorem pickWeightedRarity_isSome {tiers : List SessionTier} (hne : tiers ≠ [])
    (u : ℚ) : ∃ t, pickWeightedRarity tiers u = some t := by
  cases tiers with
  | nil => exact absurd rfl hne
  | cons t ts => exact pickLoop_cons_isSome t ts _ 0

theorem guaranteedItems_length (idF nameF : ℕ → String)
    (descF : ℕ → String → String) (now : String) :
    ∀ (ts : List SessionTier) (i : ℕ),
      (guaranteedItems idF nameF descF now i ts).length = ts.length := by
  intro ts
  induction ts with
  | nil => intro i; rfl
  | cons t ts ih => intro i; simp [guaranteedItems, ih]

theorem guaranteedItems_coverage (idF nameF : ℕ → String)
    (descF : ℕ → String → String) (now : String) :
    ∀ (ts : List SessionTier) (i : ℕ) (t : SessionTier), t ∈ ts →
      ∃ it ∈ guaranteedItems idF nameF descF now i ts,
        it.rarity = t.name ∧ it.rarityChance = t.chance := by
  intro ts
  induction ts with
  | nil => intro i t ht; cases ht
  | cons s ts ih =>
    intro i t ht
    rcases List.mem_cons.mp ht with h | h
    · subst h
      exact ⟨mkCatalogItem idF nameF descF now i t, List.mem_cons_self _ _, rfl, rfl⟩
    · obtain ⟨it, hmem, hp⟩ := ih (i + 1) t h
      exact ⟨it, List.mem_cons_of_mem _ hmem, hp⟩

theorem fillerItems_some {tiers : List SessionTier} (hne : tiers ≠ [])
    (u : ℕ → ℚ) (idF nameF : ℕ → String) (descF : ℕ → String → String)
    (now : String) :
    ∀ (k i : ℕ), ∃ l, fillerItems tiers u idF nameF descF now i k = some l ∧
      l.length = k := by
  intro k
  induction k with
  | zero => intro i; exact ⟨[], rfl, rfl⟩
  | succ k ih =>
    intro i
    obtain ⟨t, ht⟩ := pickWeightedRarity_isSome hne (u i)
    obtain ⟨rest, hrest, hlen⟩ := ih (i + 1)
    refine ⟨mkCatalogItem idF nameF descF now i t :: rest, ?_, ?_⟩
    · simp only [fillerItems, ht, hrest]
    · simp [hlen]

/-- C9 (amended): for every NON-EMPTY session tier list and every
`totalCount`, the generated catalog exists, contains for every input tier an
entry carrying that tier's name and session chance (the guaranteed
one-per-tier prefix), has exactly `totalCount` entries when
`totalCount ≥ #tiers`, and is exactly the guaranteed one-per-tier set when
`totalCount ≤ #tiers`.  (On an empty tier list with a positive remaining
count the source crashes instead of returning a catalog.) -/
theorem catalog_generation_coverage (totalItems : ℤ) (tiers : List SessionTier)
    (u : ℕ → ℚ) (idF nameF : ℕ → String) (descF : ℕ → String → String)
    (now : String) (hne : tiers ≠ []) :
    ∃ l, generateCatalogItems totalItems tiers u idF nameF descF now = some l ∧
      (∀ t ∈ tiers, ∃ it ∈ l, it.rarity = t.name ∧ it.rarityChance = t.chance) ∧
      ((tiers.length : ℤ) ≤ totalItems → (l.length : ℤ) = totalItems) ∧
      (totalItems ≤ (tiers.length : ℤ) →
        l = guaranteedItems idF nameF descF now 0 tiers) := by
  obtain ⟨fl, hfl, hlen⟩ :=
    fillerItems_some hne u idF nameF descF now
      ((totalItems - tiers.length).toNat) tiers.length
  refine ⟨guaranteedItems idF nameF descF now 0 tiers ++ fl, ?_, ?_, ?_, ?_⟩
  · unfold generateCatalogItems
    rw [hfl]
  · intro t ht
    obtain ⟨it, hmem, hp⟩ := guaranteedItems_coverage idF nameF descF now tiers 0 t ht
    exact ⟨it, List.mem_append_left _ hmem, hp⟩
  · intro hle
    rw [List.length_append, guaranteedItems_length, hlen]
    push_cast
    omega
  · intro hge
    have h0 : (totalItems - (tiers.length : ℤ)).toNat = 0 := by omega
    rw [h0] at hlen
    rw [List.length_eq_zero.mp hlen, List.append_nil]

/-- C9 counterexample: on an empty session tier list with `totalCount = 1`
the claim promises a result with exactly one entry, but the source crashes:
`pickWeightedRarity` yields `undefined` (`sessionTiers[-1]`) and reading
`.name` on it throws, so no catalog is produced. -/
theorem catalog_generation_empty_tiers_no_result :
    generateCatalogItems 1 [] (fun _ => 0) (fun _ => "") (fun _ => "")
      (fun _ _ => "") "" = none := rfl

def stW3 : SessionTier := { name := "Solo", color := "c", chance := 1 / 2 }

theorem catalog_generation_coverage_witness :
    ∃ l, generateCatalogItems 2 [stW3] (fun _ => 0) (fun _ => "id")
        (fun _ => "nm") (fun _ _ => "d") "ts" = some l ∧
      (∀ t ∈ [stW3], ∃ it ∈ l, it.rarity = t.name ∧ it.rarityChance = t.chance) ∧
      (([stW3].length : ℤ) ≤ 2 → (l.length : ℤ) = 2) ∧
      ((2 : ℤ) ≤ ([stW3].length : ℤ) →
        l = guaranteedItems (fun _ => "id") (fun _ => "nm") (fun _ _ => "d")
          "ts" 0 [stW3]) :=
  catalog_generation_coverage 2 [stW3] (fun _ => 0) (fun _ => "id")
    (fun _ => "nm") (fun _ _ => "d") "ts" (List.cons_ne_nil _ _)

end PineappleDonut
